import Mathlib

set_option autoImplicit false

/-! Verification development for the client-side reactivity runtime investigated in this
repository: a signal/effect dependency-tracking engine with versioned cells, lazily
recomputed derivations, a single active reaction collecting dependencies, an effect
tree with pause/resume/destroy, and a conditional branch controller.  The definitions
below are shallow embeddings of the runtime functions quoted in the investigation notes
(`+notes/15870/assessment.md`, the compiler diffs in the unnamed source parts); parts of
the runtime whose code is not reproduced in this repository are modelled from the spec
and carry a doc comment saying so. -/

namespace SvelteCore

/-- Recomputation-need status of a reaction (effect or derivation):
`clean` = cached result valid, `maybeDirty` = dependencies must be checked,
`dirty` = must re-run. -/
inductive SignalStatus where
  | clean
  | maybeDirty
  | dirty
  deriving DecidableEq, Repr

/-- A cell (source/signal), embedded from the `Value` interface quoted in
`assessment.md` (sources.js): current value `v`, write-version `wv`, read-version
`rv`, equality predicate `equals`, and the (nullable) array `reactions` of ids of
reactions that read from this signal.  `none` models the JavaScript `null`,
`some` an actual array. -/
structure Source where
  v : Int
  wv : Nat
  rv : Nat
  equals : Int → Int → Bool
  reactions : Option (List Nat)

/-- The reactions array of a source viewed as a plain list (`null` reads as empty). -/
def Source.reactionList (s : Source) : List Nat :=
  s.reactions.getD []

/-- Global runtime state around one tracking pass: the cell store, each reaction's
status, each reaction's (nullable) `deps` array, the single `active_reaction`
pointer, the `reaction_sources` array of cells pushed by `state()` during the
active reaction's own execution, the `current_dependencies` array being collected,
the ids of reactions carrying the DERIVED flag, and the global write version. -/
structure RState where
  cells : Nat → Source
  status : Nat → SignalStatus
  deps : Nat → Option (List Nat)
  active_reaction : Option Nat
  reaction_sources : List Nat
  current_dependencies : Option (List Nat)
  derived_reactions : List Nat
  write_version : Nat

/-- Embedded from `add_reaction` (runtime.js:455-475, quoted in `assessment.md`):
appends `rid` to the signal's `reactions` array unless it is already present
(`reactions.includes(reaction)`), and pushes the signal id onto the reaction's
`deps` array unconditionally.  Returns the updated signal and deps array. -/
def add_reaction (signal : Source) (sid : Nat) (rid : Nat) (deps : Option (List Nat)) :
    Source × Option (List Nat) :=
  let reactions : Option (List Nat) :=
    match signal.reactions with
    | none => some [rid]
    | some rs => if rid ∈ rs then some rs else some (rs ++ [rid])
  let deps' : Option (List Nat) :=
    match deps with
    | none => some [sid]
    | some ds => some (ds ++ [sid])
  ({ signal with reactions := reactions }, deps')

/-- Embedded from the dependency-registration block of `get` (runtime.js:948-964,
quoted in `assessment.md`): if the signal is not in `reaction_sources` (i.e. it was
not pushed by the active reaction's own `state()` calls) and there is an active
reaction, call `add_reaction` and push the signal onto `current_dependencies`;
otherwise the read registers nothing.  Returns the value read and the new state.
(The `remove_reaction` call for a previously recorded dependency slot applies to
re-runs diffing an old deps array; here the embedding covers a tracking pass whose
previous slot is `null`, so that branch is skipped, and `update_derived_version`
is a no-op for plain cells.) -/
def get (s : RState) (cid : Nat) : Int × RState :=
  let cell := s.cells cid
  if cid ∈ s.reaction_sources then
    (cell.v, s)
  else
    match s.active_reaction with
    | none => (cell.v, s)
    | some rid =>
      let (cell', deps') := add_reaction cell cid rid (s.deps rid)
      let cdeps : Option (List Nat) :=
        match s.current_dependencies with
        | none => some [cid]
        | some ds => some (ds ++ [cid])
      (cell.v,
        { s with
          cells := fun c => if c = cid then cell' else s.cells c
          deps := fun r => if r = rid then deps' else s.deps r
          current_dependencies := cdeps })

/-- Embedded from `mark_reactions` (sources.js:253-285, quoted in `assessment.md`):
walks the signal's `reactions` array and applies `set_signal_status reaction
to_status` to every entry, skipping reactions with the DERIVED flag when
`exclude_derived` is set. -/
def mark_reactions (s : RState) (cid : Nat) (to_status : SignalStatus)
    (exclude_derived : Bool) : RState :=
  match (s.cells cid).reactions with
  | none => s
  | some rs =>
    { s with
      status := fun r =>
        if r ∈ rs ∧ (exclude_derived = false ∨ r ∉ s.derived_reactions) then to_status
        else s.status r }

/-- Modelled from the spec: `write(cell, newValue)` — "if `newValue` is equal to
`cell.v` under the cell's equality predicate, no-op (no version bump, no
notification)"; otherwise set the value, bump the write version and notify the
dependents via `mark_reactions` (the notification itself is embedded from the
quoted `mark_reactions`). -/
def internal_set (s : RState) (cid : Nat) (value : Int) : RState :=
  let cell := s.cells cid
  if cell.equals cell.v value then
    s
  else
    let wv := s.write_version + 1
    let s1 : RState :=
      { s with
        write_version := wv
        cells := fun c => if c = cid then { cell with v := value, wv := wv } else s.cells c }
    mark_reactions s1 cid .dirty false

/-- Embedded from `source()` (sources.js, quoted in `assessment.md`): allocates a
fresh signal and performs no other side effect — in particular it does not touch
`reaction_sources`. -/
def source_alloc (s : RState) (cid : Nat) (init : Int) (eq : Int → Int → Bool) : RState :=
  { s with
    cells := fun c =>
      if c = cid then { v := init, wv := 0, rv := 0, equals := eq, reactions := none }
      else s.cells c }

/-- Embedded from `state()` (sources.js, quoted in `assessment.md`): `source()`
followed by `push_reaction_value`, which appends the new signal to the active
reaction's `reaction_sources` array. -/
def state_alloc (s : RState) (cid : Nat) (init : Int) (eq : Int → Int → Bool) : RState :=
  let s1 := source_alloc s cid init eq
  { s1 with reaction_sources := s1.reaction_sources ++ [cid] }

/-- Modelled from the spec: `untrack(fn)` runs `fn` with no active reaction, so
reads inside it never register dependencies; the previous active reaction is
restored afterwards. -/
def untrack {α : Type} (fn : RState → α × RState) (s : RState) : α × RState :=
  let saved := s.active_reaction
  let (a, s1) := fn { s with active_reaction := none }
  (a, { s1 with active_reaction := saved })

/-- Iterated `add_reaction` calls against one signal (the deps side of each call
belongs to the respective reaction and does not feed back into the signal). -/
def add_reaction_calls (signal : Source) (sid : Nat) (calls : List Nat) : Source :=
  calls.foldl (fun sg rid => (add_reaction sg sid rid none).1) signal

/-- A sample runtime state used to instantiate hypotheses of the theorems below. -/
def sampleState : RState :=
  { cells := fun _ =>
      { v := 5, wv := 0, rv := 0, equals := fun a b => a == b, reactions := some [9] }
    status := fun _ => .clean
    deps := fun _ => none
    active_reaction := some 7
    reaction_sources := []
    current_dependencies := none
    derived_reactions := []
    write_version := 0 }

/-- A sample signal used to instantiate hypotheses of the theorems below. -/
def sampleSignal : Source :=
  { v := 0, wv := 0, rv := 0, equals := fun a b => a == b, reactions := some [5] }

/-- A derivation (computed cell): status, cached value `v`, version stamp `wv`
recorded at its last computation, and the `deps` list of dependency cell ids
captured by that computation. -/
structure DerivedCell where
  status : SignalStatus
  v : Int
  wv : Nat
  deps : List Nat

/-- State for one derivation over a store of dependency cells: each cell's
write-version and value, the derivation itself, the global write version, the
recompute function `fn` (reading the dependency values), and a counter of how
many times `fn` has been invoked. -/
structure DState where
  cellwv : Nat → Nat
  cellv : Nat → Int
  d : DerivedCell
  write_version : Nat
  fn : (Nat → Int) → Int
  fnCalls : Nat

/-- A write to a dependency cell: equal values are a no-op; otherwise the global
write version is bumped, the cell updated, and — per the push phase of the
spec (§2, §4.3: "a write ... only marks derivations maybe-dirty") — the
derivation is marked maybe-dirty when it depends on the cell and is not already
dirty.  `fn` is never invoked here. -/
def write_dep (s : DState) (cid : Nat) (value : Int) : DState :=
  if s.cellv cid == value then s
  else
    let wv := s.write_version + 1
    { s with
      write_version := wv
      cellv := fun c => if c = cid then value else s.cellv c
      cellwv := fun c => if c = cid then wv else s.cellwv c
      d :=
        if cid ∈ s.d.deps ∧ s.d.status ≠ .dirty then { s.d with status := .maybeDirty }
        else s.d }

/-- Embedded from the `check_dirtiness` dependency loop quoted in
`assessment.md` (lines 1331-1352): dirty returns true immediately; clean returns
false; maybe-dirty walks the recorded `deps` and returns true as soon as a
dependency's `wv` exceeds the version recorded at the derivation's last
computation.  (Dependencies here are plain cells, for which the nested
`check_dirtiness(dependency)` call of the quoted loop is always false.) -/
def check_dirtiness (s : DState) : Bool :=
  match s.d.status with
  | .dirty => true
  | .clean => false
  | .maybeDirty => s.d.deps.any fun cid => s.d.wv < s.cellwv cid

/-- Modelled from the spec (§4.2): re-execute `fn`, update the cached value,
record the current global write version as the derivation's last-seen version,
and set the status clean.  Counts one invocation of `fn`. -/
def update_derived (s : DState) : DState :=
  { s with
    fnCalls := s.fnCalls + 1
    d := { s.d with status := .clean, v := s.fn s.cellv, wv := s.write_version } }

/-- A read of the derivation: if `check_dirtiness` is true, recompute via
`update_derived`; otherwise return the cached value without invoking `fn` (the
dirtiness walk leaves the status clean, per the tail of the quoted
`check_dirtiness`).  The middle component records whether `fn` was invoked. -/
def read_derived (s : DState) : Int × Bool × DState :=
  if check_dirtiness s then
    let s1 := update_derived s
    (s1.d.v, true, s1)
  else
    (s.d.v, false, { s with d := { s.d with status := .clean } })

/-- Operations against the derivation: a write to a dependency cell, or a read
of the derivation. -/
inductive DOp where
  | write (cid : Nat) (value : Int)
  | read

/-- One operation step. -/
def dstep (s : DState) : DOp → DState
  | .write cid value => write_dep s cid value
  | .read => (read_derived s).2.2

/-- Run a sequence of operations. -/
def drun (s : DState) (ops : List DOp) : DState :=
  ops.foldl dstep s

/-- The number of reads in `ops` that, at their execution point, find the
derivation dirty, or maybe-dirty with a dependency whose write-version moved
past the derivation's last computation. -/
def triggering_reads (s : DState) : List DOp → Nat
  | [] => 0
  | op :: rest =>
    (match op with
      | .read => if check_dirtiness s then 1 else 0
      | .write _ _ => 0) + triggering_reads (dstep s op) rest

/-- A sample derivation state: clean, cached value 42, one dependency. -/
def sampleDState : DState :=
  { cellwv := fun _ => 0
    cellv := fun _ => 0
    d := { status := .clean, v := 42, wv := 0, deps := [0] }
    write_version := 0
    fn := fun read => read 0 + 1
    fnCalls := 0 }

/-- The identifier of the update-depth error thrown by the runtime
(`effect_update_depth_exceeded`, named in the investigated issue). -/
def effect_update_depth_exceeded : String := "effect_update_depth_exceeded"

/-- Modelled from the spec (§4.1, §4.4): propagation of reentrant writes under
the depth guard.  `next e` is the effect, if any, that effect `e`'s own body
writes into (scheduling it) while reacting; propagation follows this chain and
throws the clearly-identified "update depth exceeded" error once the remaining
budget is exhausted with a write still pending, instead of spinning. -/
def propagate (next : Nat → Option Nat) : Nat → Nat → Except String Unit
  | 0, e =>
    match next e with
    | none => .ok ()
    | some _ => .error effect_update_depth_exceeded
  | fuel + 1, e =>
    match next e with
    | none => .ok ()
    | some e2 => propagate next fuel e2

/-- A flush triggered at effect `e` with the fixed depth bound. -/
def flush_with_guard (next : Nat → Option Nat) (bound : Nat) (e : Nat) :
    Except String Unit :=
  propagate next bound e

/-- Whether the reentrant-write chain starting at `e` completes within `k`
writes (`true` exactly when the chain reaches an effect that writes nothing
after at most `k` reentrant writes). -/
def settles_within (next : Nat → Option Nat) : Nat → Nat → Bool
  | 0, e => (next e).isNone
  | k + 1, e =>
    match next e with
    | none => true
    | some e2 => settles_within next k e2

/-- A sample non-cyclic chain: effects 0, 1, 2 each write into the next, effect
3 writes nothing. -/
def chainNext : Nat → Option Nat :=
  fun e => if e < 3 then some (e + 1) else none

/-- A sample cyclic chain: every effect re-writes its own dependency. -/
def cycleNext : Nat → Option Nat :=
  fun e => some e

/-- Modelled from the spec (§4.3, §9): setting the global active reaction
pointer on entry to a reaction body. -/
def enter_reaction (reaction : Nat) (s : RState) : RState :=
  { s with active_reaction := some reaction }

/-- Modelled from the spec (§4.3): scoped acquisition of the active reaction —
save the previous active reaction, set `reaction` active, execute `fn`, restore
the previous active reaction on every exit path.  The body is a state
transformer returning either a normal result (`Except.ok`) or a thrown
exception (`Except.error`), together with the state at exit; the active-reaction
pointer being a single `Option` field makes at most one reaction active at any
instant. -/
def withActiveReaction {α : Type} (reaction : Nat)
    (fn : RState → Except String α × RState) (s : RState) :
    Except String α × RState :=
  let previous := s.active_reaction
  let r := fn (enter_reaction reaction s)
  (r.1, { r.2 with active_reaction := previous })

/-- A JavaScript value as seen by the conditional branch controller: the kinds
relevant to identity comparison and truthiness. -/
inductive JSVal where
  | vnull
  | vundef
  | vbool (b : Bool)
  | vnum (n : Int)
  | vstr (s : String)
  | vsym (id : Nat)
  | vobj (id : Nat)
  deriving DecidableEq

/-- JavaScript truthiness. -/
def JSVal.truthy : JSVal → Bool
  | .vnull => false
  | .vundef => false
  | .vbool b => b
  | .vnum n => n != 0
  | .vstr s => s != ""
  | .vsym _ => true
  | .vobj _ => true

/-- The lifecycle state of one branch effect subtree: currently running
(unpaused) or paused.  A branch that does not exist (never created, or
destroyed) is represented by `Option.none` at the use site. -/
inductive BranchEffect where
  | active
  | paused
  deriving DecidableEq

/-- The conditional branch controller state: the last-seen condition (the
uninitialized sentinel is a fresh symbol, as in the logged traces), the two
nullable branch effects, and whether this site has an alternate body. -/
structure IfBlock where
  condition : JSVal
  consequent_effect : Option BranchEffect
  alternate_effect : Option BranchEffect
  has_alternate : Bool
  deriving DecidableEq

/-- Embedded from `update_branch` (if.js, quoted in the investigation notes):
`if (condition === (condition = new_condition)) return;` then the truthy /
falsy branch logic.  The falsy branch's pause of the consequent is quoted
directly; the truthy branch (elided in the notes as "truthy logic") and the
semantics of `pause_effect` / `resume_effect` are modelled from the spec §4.5:
the branch whose condition turned on is resumed if it exists and otherwise
created fresh from its body `fn` (when one was supplied), and the branch whose
condition turned off is paused, not destroyed. -/
def update_branch (st : IfBlock) (new_condition : JSVal) (has_fn : Bool) : IfBlock :=
  if st.condition = new_condition then st
  else
    let st1 := { st with condition := new_condition }
    if new_condition.truthy then
      { st1 with
        consequent_effect :=
          match st1.consequent_effect with
          | some _ => some .active
          | none => if has_fn then some .active else none
        alternate_effect :=
          match st1.alternate_effect with
          | some _ => some .paused
          | none => none }
    else
      { st1 with
        alternate_effect :=
          match st1.alternate_effect with
          | some _ => some .active
          | none => if has_fn then some .active else none
        consequent_effect :=
          match st1.consequent_effect with
          | some _ => some .paused
          | none => none }

/-- Modelled from the spec (§4.5) and the logged driver behaviour: the
controller's wrapping effect re-evaluates the raw condition expression and
reports the resolved branch selection to `update_branch` — the boolean flag
`true` with the consequent body when the condition is truthy; when falsy, the
flag `false` with the alternate body if the site has one, and otherwise `null`
with no body (matching the `update_branch true` / `update_branch null` calls in
the logged traces).  Raw condition values never reach `update_branch`. -/
def evaluate_branch (st : IfBlock) (cond : JSVal) : IfBlock :=
  if cond.truthy then update_branch st (.vbool true) true
  else if st.has_alternate then update_branch st (.vbool false) true
  else update_branch st .vnull false

/-- The controller's initial state: the uninitialized sentinel symbol and no
branch effects. -/
def initial_if_block (has_alternate : Bool) : IfBlock :=
  { condition := .vsym 0
    consequent_effect := none
    alternate_effect := none
    has_alternate := has_alternate }

/-- Run a sequence of raw `update_branch` calls (condition value and whether a
branch body was supplied). -/
def run_branch_updates (st : IfBlock) (ops : List (JSVal × Bool)) : IfBlock :=
  ops.foldl (fun s p => update_branch s p.1 p.2) st

/-- Run a sequence of controller re-evaluations with raw condition values. -/
def run_branch_evals (st : IfBlock) (conds : List JSVal) : IfBlock :=
  conds.foldl evaluate_branch st

/-- The branch mutual-exclusion invariant: the branch opposite the last-seen
condition is never unpaused. -/
def branch_inv (st : IfBlock) : Prop :=
  (st.condition.truthy = true → st.alternate_effect ≠ some .active)
  ∧ (st.condition.truthy = false → st.consequent_effect ≠ some .active)

/-- The condition field holds a resolved branch selection (as reported by
`evaluate_branch`), rather than the uninitialized sentinel or a raw value. -/
def resolved_condition (st : IfBlock) : Prop :=
  st.condition = .vbool true
  ∨ (st.has_alternate = true ∧ st.condition = .vbool false)
  ∨ (st.has_alternate = false ∧ st.condition = .vnull)

/-- An effect node in the ownership tree: destroyed flag, its teardown callback
(identified by a number), the cells whose `reactions` sets it is registered in,
and its child effects. -/
inductive EffectNode where
  | node (destroyed : Bool) (teardown : Nat) (dep_cells : List Nat)
      (children : List EffectNode)

mutual
/-- Modelled from the spec (§4.4): `destroyEffect` — when the effect is already
destroyed, a no-op (no teardown runs, no unlinking, no error); otherwise
recursively destroy the children, run teardown callbacks innermost first, mark
the node destroyed, and unlink it from every cell it was registered in.
Returns the destroyed subtree, the teardown callbacks run in order, and the
cells unlinked. -/
def destroy_effect : EffectNode → EffectNode × List Nat × List Nat
  | .node destroyed td dc children =>
    if destroyed then (.node destroyed td dc children, [], [])
    else
      let r := destroy_children children
      (.node true td dc r.1, r.2.1 ++ [td], r.2.2 ++ dc)

/-- Destroy a list of child effects in order, concatenating their teardown runs
and unlink lists. -/
def destroy_children : List EffectNode → List EffectNode × List Nat × List Nat
  | [] => ([], [], [])
  | e :: rest =>
    let r1 := destroy_effect e
    let r2 := destroy_children rest
    (r1.1 :: r2.1, r1.2.1 ++ r2.2.1, r1.2.2 ++ r2.2.2)
end

/-- The kind of a compiler-scope binding; `legacy_reactive` marks a variable
declared directly by a reactive statement. -/
inductive BindingKind where
  | legacy_reactive
  | normal
  deriving DecidableEq

/-- A scope binding (identified by name). -/
structure SBinding where
  name : String
  kind : BindingKind
  deriving DecidableEq

/-- Analysis data for one reactive statement: the names of the bindings it
assigns. -/
structure ReactiveStatementInfo where
  assignments : List String
  deriving DecidableEq

/-- The slice of the compiler context read by `setup_select_synchronization`:
runes-mode flag, the scope lookup, the analysed reactive statements, and the
scope's reference table (identifier name and reference count). -/
structure SelectCtx where
  runes : Bool
  scope : String → Option SBinding
  reactive_statements : List ReactiveStatementInfo
  ref_table : List (String × Nat)

/-- The shape of a `bind:value` expression as far as
`setup_select_synchronization` inspects it. -/
inductive BoundExpr where
  | ident (name : String)
  | member (obj : BoundExpr)
  | sequence
  | other
  deriving DecidableEq

/-- The `while (bound.type === 'MemberExpression') bound = bound.object` loop. -/
def unwrap_member : BoundExpr → BoundExpr
  | .member obj => unwrap_member obj
  | e => e

/-- Embedded from `setup_select_synchronization` (compiler
RegularElement.js): the original body as shown by its removal diff, with the
early-return guard inserted by the fix diff — skip synchronisation when the
bound identifier is already updated by a reactive statement (declared directly
in one, or assigned inside one).  Returns `some names` when the
`invalidate_inner_signals` synchronization helper is emitted over the
referenced identifiers, and `none` when the function returns without emitting
it. -/
def setup_select_synchronization (value_binding : BoundExpr) (ctx : SelectCtx) :
    Option (List String) :=
  if ctx.runes then none
  else if value_binding = .sequence then none
  else
    let bound := unwrap_member value_binding
    let skip : Bool :=
      match bound with
      | .ident nm =>
        match ctx.scope nm with
        | some binding =>
          if binding.kind = .legacy_reactive then true
          else ctx.reactive_statements.any fun rs => decide (nm ∈ rs.assignments)
        | none => false
      | _ => false
    if skip then none
    else
      let boundName : Option String :=
        match bound with
        | .ident nm => some nm
        | _ => none
      some ((ctx.ref_table.filter fun p => p.2 != 0 && (some p.1 != boundName)).map
        fun p => p.1)

/-- A sample compiler context: legacy mode, a binding `details` declared by a
reactive statement and also assigned in one, with two referenced identifiers. -/
def sampleSelectCtx : SelectCtx :=
  { runes := false
    scope := fun nm =>
      if nm = "details" then some { name := "details", kind := .legacy_reactive }
      else none
    reactive_statements := [{ assignments := ["details"] }]
    ref_table := [("data", 2), ("details", 3)] }

/-- After `add_reaction signal sid rid`, the signal's reactions array is a real
array containing `rid`. -/
theorem add_reaction_reactions_mem (signal : Source) (sid rid : Nat)
    (d : Option (List Nat)) :
    ∃ rs', (add_reaction signal sid rid d).1.reactions = some rs' ∧ rid ∈ rs' := by
  unfold add_reaction
  cases hr : signal.reactions with
  | none => exact ⟨[rid], rfl, by simp⟩
  | some rs =>
    by_cases h : rid ∈ rs
    · exact ⟨rs, by simp [h], h⟩
    · exact ⟨rs ++ [rid], by simp [h], by simp⟩

/-- Characterization of one `add_reaction` call on the reactions side: the
reaction id is appended exactly when it was not already present. -/
theorem add_reaction_reactionList (signal : Source) (sid rid : Nat)
    (d : Option (List Nat)) :
    (add_reaction signal sid rid d).1.reactionList =
      if rid ∈ signal.reactionList then signal.reactionList
      else signal.reactionList ++ [rid] := by
  unfold add_reaction Source.reactionList
  cases signal.reactions with
  | none => simp
  | some rs => by_cases h : rid ∈ rs <;> simp [h]

/-- One `add_reaction` call never pushes a reaction that is already present:
an occurrence count that was at most one stays at most one. -/
theorem add_reaction_count_le (signal : Source) (sid rid r : Nat) (d : Option (List Nat))
    (h : signal.reactionList.count rid ≤ 1) :
    (add_reaction signal sid r d).1.reactionList.count rid ≤ 1 := by
  rw [add_reaction_reactionList]
  by_cases hmem : r ∈ signal.reactionList
  · simpa [hmem] using h
  · rw [if_neg hmem, List.count_append]
    rcases eq_or_ne rid r with hrr | hrr
    · subst hrr
      have h0 : signal.reactionList.count rid = 0 := List.count_eq_zero.mpr hmem
      simp [h0, List.count_cons]
    · have h1 : List.count rid [r] = 0 := by simp [List.count_cons, hrr]
      rw [h1]
      simpa using h

/-- One `add_reaction` call appends the signal to the reaction's deps array
unconditionally. -/
theorem add_reaction_deps_append (signal : Source) (sid rid : Nat)
    (d : Option (List Nat)) :
    (add_reaction signal sid rid d).2.getD [] = d.getD [] ++ [sid] := by
  unfold add_reaction
  cases d <;> simp

/-- `mark_reactions` with `exclude_derived` unset sets the status of every
reaction recorded on the signal. -/
theorem mark_reactions_sets_status (s : RState) (cid rid : Nat) (rs : List Nat)
    (hr : (s.cells cid).reactions = some rs) (hmem : rid ∈ rs)
    (to_status : SignalStatus) :
    (mark_reactions s cid to_status false).status rid = to_status := by
  unfold mark_reactions
  rw [hr]
  simp [hmem]

/-- A non-equal `internal_set` marks every reaction recorded on the cell dirty. -/
theorem internal_set_marks_dirty (s : RState) (cid rid : Nat) (value : Int) (rs : List Nat)
    (hneq : (s.cells cid).equals (s.cells cid).v value = false)
    (hr : (s.cells cid).reactions = some rs) (hmem : rid ∈ rs) :
    (internal_set s cid value).status rid = .dirty := by
  simp only [internal_set, hneq, Bool.false_eq_true, if_false]
  exact mark_reactions_sets_status _ cid rid rs (by simp [hr]) hmem .dirty

/-- Claim C9: after any number of `add_reaction(signal, reaction)` calls the
reaction appears at most once in the signal's reactions array (a reaction that is
already present is never appended a second time), while each single call
unconditionally appends the signal to the reaction's deps list. -/
theorem add_reaction_no_duplicate_and_deps_appended
    (signal : Source) (sid : Nat) (calls : List Nat) (rid : Nat)
    (h : signal.reactionList.count rid ≤ 1) (d : Option (List Nat)) :
    (add_reaction_calls signal sid calls).reactionList.count rid ≤ 1
    ∧ (add_reaction signal sid rid d).2.getD [] = d.getD [] ++ [sid] := by
  refine ⟨?_, add_reaction_deps_append signal sid rid d⟩
  induction calls generalizing signal with
  | nil => exact h
  | cons c rest ih =>
    exact ih _ (add_reaction_count_le signal sid rid c none h)

/-- Witness for C9 at a concrete signal: three calls, two of them for the same
reaction id 7, leave at most one occurrence of 7. -/
theorem add_reaction_no_duplicate_and_deps_appended_witness :
    (add_reaction_calls sampleSignal 3 [7, 7, 9]).reactionList.count 7 ≤ 1 :=
  (add_reaction_no_duplicate_and_deps_appended sampleSignal 3 [7, 7, 9] 7
    (by decide) none).1

/-- Claim C2: writing a cell to a value equal to its current value under the
cell's equality predicate is a complete no-op: the state — in particular the
cell's write-version `wv` and every dependent's status — is unchanged, so no
dependent effect is marked dirty or re-run.  (A predicate configured as
always-unequal never reports a value as equal, so it never satisfies the
hypothesis.) -/
theorem write_equal_value_is_noop (s : RState) (cid : Nat) (value : Int)
    (h : (s.cells cid).equals (s.cells cid).v value = true) :
    internal_set s cid value = s := by
  unfold internal_set
  simp [h]

/-- Witness for C2: writing the current value 5 back into the sample cell leaves
the state unchanged. -/
theorem write_equal_value_is_noop_witness :
    internal_set sampleState 0 5 = sampleState :=
  write_equal_value_is_noop sampleState 0 5 (by decide)

/-- Claim C1: if the active reaction `rid` reads a cell `cid` that is not among
its own originated sources (`reaction_sources`) — which covers cells allocated
before the reaction ran, during it, or lazily via `source()` on first access —
then the read registers `rid` in the cell's reactions array, and a subsequent
write of a non-equal value marks `rid` dirty.  The last conjunct records that a
lazy `source()` allocation inside the reaction does not put the cell into
`reaction_sources`, so such a cell satisfies the externally-supplied hypothesis.
Reads inside `untrack` run with no active reaction and are excluded by the
hypothesis. -/
theorem tracked_read_registers_dependent (s : RState) (cid rid : Nat)
    (hact : s.active_reaction = some rid)
    (hext : cid ∉ s.reaction_sources) :
    rid ∈ ((get s cid).2.cells cid).reactionList
    ∧ (∀ value : Int,
        ((get s cid).2.cells cid).equals ((get s cid).2.cells cid).v value = false →
        (internal_set ((get s cid).2) cid value).status rid = .dirty)
    ∧ (∀ init : Int, ∀ eq : Int → Int → Bool,
        cid ∉ (source_alloc s cid init eq).reaction_sources) := by
  obtain ⟨rs', hrs', hmem⟩ := add_reaction_reactions_mem (s.cells cid) cid rid (s.deps rid)
  have hcell : (get s cid).2.cells cid = (add_reaction (s.cells cid) cid rid (s.deps rid)).1 := by
    unfold get
    simp [hext, hact]
  refine ⟨?_, ?_, ?_⟩
  · rw [hcell]
    unfold Source.reactionList
    rw [hrs']
    simpa using hmem
  · intro value hneq
    refine internal_set_marks_dirty _ cid rid value rs' hneq ?_ hmem
    rw [hcell]
    exact hrs'
  · intro init eq
    simpa [source_alloc] using hext

/-- Witness for C1: in the sample state, reaction 7 is active and cell 0 is
externally supplied; the read registers 7 on cell 0. -/
theorem tracked_read_registers_dependent_witness :
    7 ∈ ((get sampleState 0).2.cells 0).reactionList :=
  (tracked_read_registers_dependent sampleState 0 7 rfl (by decide)).1

/-- A write to a dependency never invokes the derivation's recompute function. -/
theorem write_dep_fnCalls (s : DState) (cid : Nat) (value : Int) :
    (write_dep s cid value).fnCalls = s.fnCalls := by
  unfold write_dep
  split <;> rfl

/-- A read invokes `fn` exactly when the dirtiness walk triggers. -/
theorem read_derived_fnCalls (s : DState) :
    (read_derived s).2.2.fnCalls
      = s.fnCalls + (if check_dirtiness s then 1 else 0) := by
  unfold read_derived
  by_cases h : check_dirtiness s <;> simp [h, update_derived]

/-- Claim C3: a read of a clean derivation returns the cached value without
invoking `fn`; and over any sequence of dependency writes and reads, `fn` is
invoked exactly once per read that finds the derivation dirty, or maybe-dirty
with an actually-changed dependency — in particular, never more often than such
transitions, no matter how many times an unread dependency is written. -/
theorem derivation_reads_are_lazy (s : DState) :
    (s.d.status = .clean →
      (read_derived s).1 = s.d.v ∧ (read_derived s).2.2.fnCalls = s.fnCalls)
    ∧ (∀ ops : List DOp,
        (drun s ops).fnCalls = s.fnCalls + triggering_reads s ops) := by
  constructor
  · intro hclean
    have hc : check_dirtiness s = false := by simp [check_dirtiness, hclean]
    unfold read_derived
    rw [hc]
    simp
  · intro ops
    induction ops generalizing s with
    | nil => simp [drun, triggering_reads]
    | cons op rest ih =>
      have hstep : drun s (op :: rest) = drun (dstep s op) rest := rfl
      rw [hstep, ih (dstep s op)]
      cases op with
      | write cid value =>
        have htr : triggering_reads s (.write cid value :: rest)
            = triggering_reads (dstep s (.write cid value)) rest := by
          simp [triggering_reads]
        rw [htr]
        have hw : (dstep s (.write cid value)).fnCalls = s.fnCalls :=
          write_dep_fnCalls s cid value
        omega
      | read =>
        have htr : triggering_reads s (.read :: rest)
            = (if check_dirtiness s then 1 else 0)
              + triggering_reads (dstep s .read) rest := by
          simp [triggering_reads]
        rw [htr]
        have hr : (dstep s .read).fnCalls
            = s.fnCalls + (if check_dirtiness s then 1 else 0) :=
          read_derived_fnCalls s
        omega

/-- Witness for C3: the sample derivation is clean, and reading it returns the
cached value 42 without invoking `fn`. -/
theorem derivation_reads_are_lazy_witness :
    (read_derived sampleDState).1 = sampleDState.d.v
      ∧ (read_derived sampleDState).2.2.fnCalls = sampleDState.fnCalls :=
  (derivation_reads_are_lazy sampleDState).1 rfl

/-- Propagation succeeds when the chain settles within the budget. -/
theorem propagate_ok_of_settles (next : Nat → Option Nat) :
    ∀ fuel e : Nat, settles_within next fuel e = true →
      propagate next fuel e = .ok () := by
  intro fuel
  induction fuel with
  | zero =>
    intro e h
    unfold settles_within at h
    unfold propagate
    cases hn : next e with
    | none => rfl
    | some e2 => rw [hn] at h; simp at h
  | succ k ih =>
    intro e h
    unfold settles_within at h
    unfold propagate
    cases hn : next e with
    | none => rfl
    | some e2 =>
      rw [hn] at h
      exact ih e2 h

/-- Settling within `k` writes implies settling within `k + 1`. -/
theorem settles_within_mono (next : Nat → Option Nat) :
    ∀ k e : Nat, settles_within next k e = true →
      settles_within next (k + 1) e = true := by
  intro k
  induction k with
  | zero =>
    intro e h
    unfold settles_within at h ⊢
    cases hn : next e with
    | none => rfl
    | some e2 => rw [hn] at h; simp at h
  | succ m ih =>
    intro e h
    unfold settles_within at h ⊢
    cases hn : next e with
    | none => rfl
    | some e2 =>
      rw [hn] at h
      exact ih e2 h

/-- Propagation either succeeds or throws exactly the update-depth error; it
never hangs or produces another failure. -/
theorem propagate_ok_or_depth_error (next : Nat → Option Nat) :
    ∀ fuel e : Nat, propagate next fuel e = .ok ()
      ∨ propagate next fuel e = .error effect_update_depth_exceeded := by
  intro fuel
  induction fuel with
  | zero =>
    intro e
    unfold propagate
    cases next e with
    | none => exact Or.inl rfl
    | some e2 => exact Or.inr rfl
  | succ k ih =>
    intro e
    unfold propagate
    cases next e with
    | none => exact Or.inl rfl
    | some e2 => exact ih e2

/-- Successful propagation means the chain settled within the budget. -/
theorem settles_of_propagate_ok (next : Nat → Option Nat) :
    ∀ fuel e : Nat, propagate next fuel e = .ok () →
      settles_within next fuel e = true := by
  intro fuel
  induction fuel with
  | zero =>
    intro e h
    unfold propagate at h
    unfold settles_within
    cases hn : next e with
    | none => rfl
    | some e2 => rw [hn] at h; simp at h
  | succ k ih =>
    intro e h
    unfold propagate at h
    unfold settles_within
    cases hn : next e with
    | none => rfl
    | some e2 =>
      rw [hn] at h
      exact ih e2 h

/-- Claim C4: a reentrant-write chain that does not settle within the fixed
bound makes the flush throw the clearly-identified
"effect_update_depth_exceeded" error (never a silent hang — `flush_with_guard`
is total and only ever yields success or that error), while every non-cyclic
chain of at most `bound - 1` reentrant writes completes without the error. -/
theorem update_depth_guard (next : Nat → Option Nat) (bound e : Nat) :
    (settles_within next (bound - 1) e = true →
      flush_with_guard next bound e = .ok ())
    ∧ (settles_within next bound e = false →
      flush_with_guard next bound e = .error effect_update_depth_exceeded) := by
  constructor
  · intro h
    unfold flush_with_guard
    apply propagate_ok_of_settles
    cases bound with
    | zero => simpa using h
    | succ b => exact settles_within_mono next b e (by simpa using h)
  · intro h
    rcases propagate_ok_or_depth_error next bound e with hok | herr
    · exact absurd (settles_of_propagate_ok next bound e hok) (by simp [h])
    · exact herr

/-- Witness for C4: the three-write chain completes under bound 10, and the
cyclic chain throws the update-depth error. -/
theorem update_depth_guard_witness :
    flush_with_guard chainNext 10 0 = .ok ()
    ∧ flush_with_guard cycleNext 10 0 = .error effect_update_depth_exceeded :=
  ⟨(update_depth_guard chainNext 10 0).1 (by decide),
    (update_depth_guard cycleNext 10 0).2 (by decide)⟩

/-- Claim C7: `withActiveReaction` keeps at most one reaction active at any
instant (the active pointer is a single optional slot, set to exactly the
entered reaction for the body's execution) and restores the previously active
reaction on every exit path — the restoration holds for every body `fn`,
whether its result is a normal `Except.ok` return or a thrown `Except.error`. -/
theorem with_active_reaction_stack_discipline {α : Type} (reaction : Nat)
    (fn : RState → Except String α × RState) (s : RState) :
    (withActiveReaction reaction fn s).2.active_reaction = s.active_reaction
    ∧ (enter_reaction reaction s).active_reaction = some reaction :=
  ⟨rfl, rfl⟩

/-- Claim C8: destroying an effect twice produces exactly the observable state
of destroying it once — the second call changes nothing, runs no teardown,
unlinks nothing, and (being total) raises no error. -/
theorem destroy_effect_idempotent (e : EffectNode) :
    destroy_effect (destroy_effect e).1 = ((destroy_effect e).1, [], []) := by
  cases e with
  | node destroyed td dc children =>
    cases destroyed with
    | true => simp [destroy_effect]
    | false => simp [destroy_effect]

/-- Any `update_branch` call preserves the branch mutual-exclusion invariant. -/
theorem update_branch_preserves_inv (st : IfBlock) (c : JSVal) (f : Bool)
    (h : branch_inv st) : branch_inv (update_branch st c f) := by
  unfold update_branch
  by_cases hc : st.condition = c
  · rw [if_pos hc]; exact h
  · rw [if_neg hc]
    by_cases ht : c.truthy
    · rw [if_pos ht]
      constructor
      · intro _
        cases st.alternate_effect <;> simp
      · intro hfalse
        simp [ht] at hfalse
    · rw [if_neg ht]
      constructor
      · intro htrue
        simp at htrue
        simp [htrue] at ht
      · intro _
        cases st.consequent_effect <;> simp

/-- The invariant holds along any sequence of raw `update_branch` calls. -/
theorem run_branch_updates_inv (ops : List (JSVal × Bool)) :
    ∀ st : IfBlock, branch_inv st → branch_inv (run_branch_updates st ops) := by
  induction ops with
  | nil => intro st h; exact h
  | cons p rest ih =>
    intro st h
    exact ih _ (update_branch_preserves_inv st p.1 p.2 h)

/-- The invariant holds at the controller's initial state. -/
theorem initial_if_block_inv (has_alt : Bool) :
    branch_inv (initial_if_block has_alt) := by
  constructor
  · intro _
    simp [initial_if_block]
  · intro h
    simp [initial_if_block, JSVal.truthy] at h

/-- Claim C5: in every reachable controller state the consequent and alternate
effects are never both unpaused; and whenever both exist, the one for the
non-selected branch is paused — it still exists, i.e. it was paused rather than
destroyed. -/
theorem branch_effects_mutually_exclusive (has_alt : Bool)
    (ops : List (JSVal × Bool)) :
    ¬((run_branch_updates (initial_if_block has_alt) ops).consequent_effect
        = some .active
      ∧ (run_branch_updates (initial_if_block has_alt) ops).alternate_effect
        = some .active)
    ∧ ((run_branch_updates (initial_if_block has_alt) ops).consequent_effect.isSome
          = true →
        (run_branch_updates (initial_if_block has_alt) ops).alternate_effect.isSome
          = true →
        (if (run_branch_updates (initial_if_block has_alt) ops).condition.truthy
          then (run_branch_updates (initial_if_block has_alt) ops).alternate_effect
            = some .paused
          else (run_branch_updates (initial_if_block has_alt) ops).consequent_effect
            = some .paused)) := by
  have hinv := run_branch_updates_inv ops (initial_if_block has_alt)
    (initial_if_block_inv has_alt)
  set st := run_branch_updates (initial_if_block has_alt) ops with hst
  obtain ⟨h1, h2⟩ := hinv
  constructor
  · rintro ⟨hc, ha⟩
    by_cases ht : st.condition.truthy
    · exact h1 ht ha
    · exact h2 (by simpa using ht) hc
  · intro hcs has
    by_cases ht : st.condition.truthy
    · rw [if_pos ht]
      rcases halt : st.alternate_effect with _ | b
      · rw [halt] at has; simp at has
      · cases b with
        | active => exact absurd halt (h1 ht)
        | paused => rfl
    · rw [if_neg ht]
      rcases hcons : st.consequent_effect with _ | b
      · rw [hcons] at hcs; simp at hcs
      · cases b with
        | active => exact absurd hcons (h2 (by simpa using ht))
        | paused => rfl

/-- Witness for C5: after showing the consequent and then switching to the
alternate, both effects exist, they are not both unpaused, and the non-selected
consequent is paused. -/
theorem branch_effects_mutually_exclusive_witness :
    ¬((run_branch_updates (initial_if_block true)
          [(.vbool true, true), (.vbool false, true)]).consequent_effect
        = some .active
      ∧ (run_branch_updates (initial_if_block true)
          [(.vbool true, true), (.vbool false, true)]).alternate_effect
        = some .active)
    ∧ (if (run_branch_updates (initial_if_block true)
            [(.vbool true, true), (.vbool false, true)]).condition.truthy
        then (run_branch_updates (initial_if_block true)
            [(.vbool true, true), (.vbool false, true)]).alternate_effect
          = some .paused
        else (run_branch_updates (initial_if_block true)
            [(.vbool true, true), (.vbool false, true)]).consequent_effect
          = some .paused) :=
  ⟨(branch_effects_mutually_exclusive true
      [(.vbool true, true), (.vbool false, true)]).1,
    (branch_effects_mutually_exclusive true
      [(.vbool true, true), (.vbool false, true)]).2 (by decide) (by decide)⟩

/-- `update_branch` always leaves the last-seen condition at the reported
value (on the early return the two are already identical). -/
theorem update_branch_condition (st : IfBlock) (c : JSVal) (f : Bool) :
    (update_branch st c f).condition = c := by
  unfold update_branch
  by_cases hc : st.condition = c
  · rw [if_pos hc]; exact hc
  · rw [if_neg hc]
    by_cases ht : c.truthy <;> simp [ht]

/-- `update_branch` never changes whether the site has an alternate body. -/
theorem update_branch_has_alternate (st : IfBlock) (c : JSVal) (f : Bool) :
    (update_branch st c f).has_alternate = st.has_alternate := by
  unfold update_branch
  by_cases hc : st.condition = c
  · rw [if_pos hc]
  · rw [if_neg hc]
    by_cases ht : c.truthy <;> simp [ht]

/-- After any controller re-evaluation, the last-seen condition is a resolved
branch selection. -/
theorem evaluate_branch_resolved (st : IfBlock) (c : JSVal) :
    resolved_condition (evaluate_branch st c) := by
  unfold evaluate_branch resolved_condition
  by_cases ht : c.truthy
  · rw [if_pos ht]
    exact Or.inl (update_branch_condition st (.vbool true) true)
  · rw [if_neg ht]
    by_cases ha : st.has_alternate
    · rw [if_pos ha]
      refine Or.inr (Or.inl ⟨?_, update_branch_condition st (.vbool false) true⟩)
      rw [update_branch_has_alternate]
      exact ha
    · rw [if_neg ha]
      refine Or.inr (Or.inr ⟨?_, update_branch_condition st .vnull false⟩)
      rw [update_branch_has_alternate]
      simpa using ha

/-- After at least one re-evaluation, the last-seen condition is resolved. -/
theorem run_branch_evals_resolved (c0 : JSVal) (conds : List JSVal) :
    ∀ st : IfBlock, resolved_condition (run_branch_evals st (c0 :: conds)) := by
  induction conds generalizing c0 with
  | nil => intro st; exact evaluate_branch_resolved st c0
  | cons c1 rest ih => intro st; exact ih c1 (evaluate_branch st c0)

/-- Claim C6: a controller re-evaluation whose condition has the same
truthiness as the previously resolved boolean — including distinct truthy
values such as 1 then 2, distinct objects, distinct strings — is a complete
no-op: the state is unchanged, so no effect is created, paused, resumed, or
destroyed. -/
theorem unchanged_truthiness_no_branch_churn (has_alt : Bool) (c0 : JSVal)
    (conds : List JSVal) (c : JSVal)
    (h : c.truthy
      = (run_branch_evals (initial_if_block has_alt) (c0 :: conds)).condition.truthy) :
    evaluate_branch (run_branch_evals (initial_if_block has_alt) (c0 :: conds)) c
      = run_branch_evals (initial_if_block has_alt) (c0 :: conds) := by
  set st := run_branch_evals (initial_if_block has_alt) (c0 :: conds) with hst
  have hres := run_branch_evals_resolved c0 conds (initial_if_block has_alt)
  rw [← hst] at hres
  unfold evaluate_branch
  rcases hres with h1 | ⟨h2a, h2b⟩ | ⟨h3a, h3b⟩
  · have hct : c.truthy = true := by rw [h, h1]; rfl
    rw [if_pos hct]
    unfold update_branch
    rw [if_pos h1]
  · have hct : c.truthy = false := by rw [h, h2b]; rfl
    rw [if_neg (by simp [hct]), if_pos h2a]
    unfold update_branch
    rw [if_pos h2b]
  · have hct : c.truthy = false := by rw [h, h3b]; rfl
    rw [if_neg (by simp [hct]), if_neg (by simp [h3a])]
    unfold update_branch
    rw [if_pos h3b]

/-- Witness for C6: after resolving the truthy condition 1, re-evaluating with
the distinct truthy condition 2 changes nothing. -/
theorem unchanged_truthiness_no_branch_churn_witness :
    evaluate_branch (run_branch_evals (initial_if_block false) [JSVal.vnum 1])
        (JSVal.vnum 2)
      = run_branch_evals (initial_if_block false) [JSVal.vnum 1] :=
  unchanged_truthiness_no_branch_churn false (.vnum 1) [] (.vnum 2) (by decide)

/-- Claim C10: for a legacy-mode select `bind:value` whose bound identifier's
binding is declared directly in a reactive statement (`legacy_reactive`) or
assigned inside some reactive statement, `setup_select_synchronization` returns
before emitting the `invalidate_inner_signals` synchronization helper — no
synchronization effect is generated for that binding. -/
theorem select_sync_skipped_for_reactive_bindings (ctx : SelectCtx)
    (vb : BoundExpr) (nm : String) (binding : SBinding)
    (hrunes : ctx.runes = false)
    (hbound : unwrap_member vb = .ident nm)
    (hscope : ctx.scope nm = some binding)
    (hkind : binding.kind = .legacy_reactive
      ∨ ∃ rs ∈ ctx.reactive_statements, nm ∈ rs.assignments) :
    setup_select_synchronization vb ctx = none := by
  have hseq : ¬(vb = .sequence) := by
    intro hv
    rw [hv] at hbound
    simp [unwrap_member] at hbound
  unfold setup_select_synchronization
  rw [hrunes]
  simp only [Bool.false_eq_true, if_false]
  rw [if_neg hseq, hbound]
  rcases hkind with hk | ⟨rs, hrs, hmem⟩
  · simp [hscope, hk]
  · by_cases hk : binding.kind = .legacy_reactive
    · simp [hscope, hk]
    · have hany : (ctx.reactive_statements.any fun rs => decide (nm ∈ rs.assignments))
          = true :=
        List.any_eq_true.mpr ⟨rs, hrs, by simpa using hmem⟩
      simp [hscope, hk, hany]

/-- Witness for C10: in the sample context the bound identifier `details` is
`legacy_reactive`, so no synchronization helper is emitted. -/
theorem select_sync_skipped_for_reactive_bindings_witness :
    setup_select_synchronization (.member (.ident "details")) sampleSelectCtx
      = none :=
  select_sync_skipped_for_reactive_bindings sampleSelectCtx
    (.member (.ident "details")) "details"
    { name := "details", kind := .legacy_reactive }
    rfl rfl (by decide) (Or.inl rfl)

end SvelteCore
